import Mathlib

/-!
# Verification of `kedro_azureml.datasets.folder_dataset.AzureMLFolderDataSet`

A shallow embedding of `src/kedro_azureml/datasets/folder_dataset.py`.

The dataset wraps an inner, format-specific dataset and adds
(a) resolution of which remote Azure ML data-asset version to read and
(b) on-demand download of only the needed files into a local path.

External collaborators (the Azure ML client, the `azureml.fsspec`
filesystem, and the inner dataset) are modelled as an oracle record
`RemoteWorld`; every call made to them is recorded in an event trace so
that claims about "how many remote calls happen" can be stated exactly.

Paths are modelled after `pathlib.PurePosixPath`, which is what the
source manipulates via `Path(...) / ...`, `.suffix`, and `.parent`.
-/

namespace KedroAzureML

/-- Decidable equality for `Except`, so that the embedded operations can
be evaluated on concrete inputs. -/
instance {e a : Type} [DecidableEq e] [DecidableEq a] : DecidableEq (Except e a) := fun x y =>
  match x, y with
  | .ok u, .ok v =>
    if h : u = v then .isTrue (by rw [h]) else .isFalse (by simp [h])
  | .error u, .error v =>
    if h : u = v then .isTrue (by rw [h]) else .isFalse (by simp [h])
  | .ok _, .error _ => .isFalse (by simp)
  | .error _, .ok _ => .isFalse (by simp)

/-! ## POSIX paths, as `pathlib.PurePosixPath` behaves in the source -/

/-- A POSIX pure path: an absolute flag plus the list of kept segments.
`pathlib` normalization drops empty components and `"."` components. -/
structure PPath where
  absolute : Bool
  segments : List String
deriving DecidableEq, Repr

/-- Split a character list on `/`, like Python `str.split("/")`:
`splitSlash "a/b".toList = [toList "a", toList "b"]`, and the empty
list yields one empty group. -/
def splitSlash : List Char → List (List Char)
  | [] => [[]]
  | c :: rest =>
    let r := splitSlash rest
    if c == '/' then [] :: r
    else (c :: r.headD []) :: r.tail

/-- `pathlib` keeps a component iff it is neither empty nor `"."`. -/
def keepSeg (g : List Char) : Bool := !(g.isEmpty || g == ['.'])

/-- Build a `PPath` from raw characters: absolute iff the first character
is `/`; segments are the kept `/`-separated groups. -/
def parsePathCs (cs : List Char) : PPath :=
  ⟨cs.headD ' ' == '/', ((splitSlash cs).filter keepSeg).map (fun g => String.mk g)⟩

/-- `Path(s)` of the source: parse a string into a normalized pure path. -/
def parsePath (s : String) : PPath := parsePathCs s.toList

/-- Whether a raw string denotes an absolute path (starts with `/`). -/
def isAbsolute (s : String) : Bool := s.toList.headD ' ' == '/'

/-- `p / q` of `pathlib`: if `q` is absolute it replaces `p`, otherwise
the segments are concatenated. -/
def PPath.join (p q : PPath) : PPath :=
  if q.absolute then q else ⟨p.absolute, p.segments ++ q.segments⟩

/-- `p / s` where `s` is a raw string (Python parses then joins). -/
def PPath.joinStr (p : PPath) (s : String) : PPath := p.join (parsePath s)

/-- `str(p)` of `pathlib`: `"."` for the empty relative path, leading `/`
when absolute, segments joined by `/` otherwise. -/
def PPath.toStr (p : PPath) : String :=
  if p.absolute then "/" ++ String.intercalate "/" p.segments
  else if p.segments.isEmpty then "." else String.intercalate "/" p.segments

/-- `p.name` of `pathlib`: the final segment, `""` if there is none. -/
def PPath.name (p : PPath) : String := p.segments.getLast?.getD ""

/-- Index of the last `.` in a character list, if any. -/
def lastDotIdx (cs : List Char) : Option Nat :=
  ((List.range cs.length).filter (fun i => cs.getD i ' ' == '.')).getLast?

/-- `p.suffix` of `pathlib`: `name[i:]` for the last dot index `i` with
`0 < i < len(name) - 1`, else `""` (so `"orders"`, `".hidden"` and
`"orders."` all have no suffix, `"orders.csv"` has `".csv"`). -/
def PPath.suffix (p : PPath) : String :=
  let cs := p.name.toList
  match lastDotIdx cs with
  | some i => if 0 < i ∧ i < cs.length - 1 then String.mk (cs.drop i) else ""
  | none => ""

/-- `p.parent` of `pathlib`: drop the last segment; the empty relative
path and the root are their own parents. -/
def PPath.parent (p : PPath) : PPath := ⟨p.absolute, p.segments.dropLast⟩

/-! ## External collaborators and the event trace -/

/-- A remote Azure ML data asset as returned by `ml_client.data.get`:
its `type` (`"uri_file"`, `"uri_folder"`, ...) and its URI `path`. -/
structure Asset where
  type : String
  path : String
deriving DecidableEq, Repr

/-- The oracle for all external collaborators:
`latest` is `ml_client.data.get(name, label="latest").version`;
`assets` is `ml_client.data.get(name, version=v)`;
`inferStorage` is `fs._infer_storage_options(uri)[-1]`, the
storage-account-relative path of a URI;
`objects` is `fs.ls(path)`;
`innerLoad` is the inner dataset's `load()` keyed by the filepath string
it was constructed with. -/
structure RemoteWorld where
  latest : String → Option String
  assets : String → String → Option Asset
  inferStorage : String → String
  objects : String → List String
  innerLoad : String → String

/-- One observable call to a collaborator. -/
inductive REvent where
  | getLatest (asset : String)
  | getAsset (asset : String) (version : String)
  | lsObjects (path : String)
  | downloadCall (src : String) (dest : String) (mode : String)
  | innerLoadCall (filepath : String)
deriving DecidableEq, Repr

/-- Whether an event is a call to the remote client (as opposed to the
inner dataset delegate). -/
def REvent.isRemote : REvent → Bool
  | .getLatest _ => true
  | .getAsset _ _ => true
  | .lsObjects _ => true
  | .downloadCall _ _ _ => true
  | .innerLoadCall _ => false

/-- Whether an event is an `fs.ls` listing call. -/
def REvent.isLs : REvent → Bool
  | .lsObjects _ => true
  | _ => false

/-- Whether an event is an `fs.download` call. -/
def REvent.isDownload : REvent → Bool
  | .downloadCall _ _ _ => true
  | _ => false

/-! ## Dataset state -/

/-- `kedro.io.core.Version`: a pair of optional load / save version
strings. -/
structure KVersion where
  load : Option String
  save : Option String
deriving DecidableEq, Repr

/-- The mutable state of one `AzureMLFolderDataSet` instance:
constructor arguments plus the two-slot version cache
(`Cache(maxsize=2)`, one slot per role) and the mode flags set by the
hook collaborator. `filepath` is `self._dataset_config[self._filepath_arg]`. -/
structure DSState where
  azureml_dataset : String
  version : Option KVersion
  folder : String
  filepath : String
  version_cache_load : Option String
  version_cache_save : Option String
  download : Bool
  local_run : Bool
deriving DecidableEq, Repr

/-- The errors the embedded code can raise.
`dataSetError` is kedro's `DataSetError` raised by the constructor (the
spec's ConfigurationConflict); `dataSetNotFound` is
`DataSetNotFoundError` (the spec's AssetNotFound); `versionNotFound` is
`VersionNotFoundError`; `resourceNotFound` is the raw
`azure.core.exceptions.ResourceNotFoundError`; `valueError` models the
Azure SDK rejecting `version=None`; `typeError` models Python's
`Path / None`; `unboundLocal` models Python's unbound-local-variable
error. -/
inductive DSErr where
  | dataSetError
  | dataSetNotFound
  | versionNotFound
  | resourceNotFound
  | valueError
  | typeError
  | unboundLocal
deriving DecidableEq, Repr

/-- The part of the inner dataset configuration the constructor looks at.
Modelled from the spec: the inner config is parsed by the pipeline
framework's `parse_dataset_definition` (not under `src/`), which turns a
truthy `versioned` flag into the presence of the `VERSION_KEY` entry
that line 48 of `folder_dataset.py` tests; `hasVersionKey` records that
presence, and `filepath` is the value under the configurable filepath
key (default `"filepath"`). -/
structure InnerConfig where
  hasVersionKey : Bool
  filepath : String
deriving DecidableEq, Repr

/-- The set of files present on the local disk, by path string. -/
abbrev LocalFS := List String

/-! ## The embedded operations -/

/-- `AzureMLFolderDataSet.__init__` (lines 29-53): store the arguments,
initialize the empty two-slot cache and the mode flags, and fail with
`DataSetError` if the inner dataset configuration contains the version
key. No collaborator is called, so the trace is empty. -/
def mkFolderDataSet (azureml_dataset : String) (cfg : InnerConfig)
    (version : Option KVersion) (folder : String) :
    Except DSErr DSState × List REvent :=
  if cfg.hasVersionKey then (.error .dataSetError, [])
  else
    (.ok { azureml_dataset := azureml_dataset
           version := version
           folder := folder
           filepath := cfg.filepath
           version_cache_load := none
           version_cache_save := none
           download := false
           local_run := false }, [])

/-- `_get_latest_version` (lines 84-91): ask the client for the asset's
`"latest"`-labelled version; a `ResourceNotFoundError` is converted to
`DataSetNotFoundError`. -/
def getLatestVersion (w : RemoteWorld) (s : DSState) :
    Except DSErr String × List REvent :=
  match w.latest s.azureml_dataset with
  | some v => (.ok v, [.getLatest s.azureml_dataset])
  | none => (.error .dataSetNotFound, [.getLatest s.azureml_dataset])

/-- `_fetch_latest_load_version` (lines 93-95): `_get_latest_version`
memoized in the `"load"` slot of `_version_cache` by `cachedmethod`; on
an exception nothing is cached. -/
def fetchLatestLoadVersion (w : RemoteWorld) (s : DSState) :
    Except DSErr String × DSState × List REvent :=
  match s.version_cache_load with
  | some v => (.ok v, s, [])
  | none =>
    match getLatestVersion w s with
    | (.ok v, ev) => (.ok v, { s with version_cache_load := some v }, ev)
    | (.error e, ev) => (.error e, s, ev)

/-- Modelled from the spec: `resolve_load_version()` is inherited from
the pipeline framework's `AbstractVersionedDataSet` and is not under
`src/`. Per the spec: "If an explicit version was supplied at
construction, return it unchanged (no remote call, no caching needed).
Otherwise, query the remote store for the 'latest' labeled version of
the named asset and cache the result under the 'load' cache slot."
With no version object at all (`_version = None`, the remote-run
setting installed by the hook) it returns `none` without remote calls. -/
def resolveLoadVersion (w : RemoteWorld) (s : DSState) :
    Except DSErr (Option String) × DSState × List REvent :=
  match s.version with
  | none => (.ok none, s, [])
  | some ver =>
    match ver.load with
    | some v => (.ok (some v), s, [])
    | none =>
      match fetchLatestLoadVersion w s with
      | (.ok v, s1, ev) => (.ok (some v), s1, ev)
      | (.error e, s1, ev) => (.error e, s1, ev)

/-- The `path` property (lines 55-68): in local-run mode,
`Path(folder) / azureml_dataset / resolve_load_version() / Path(filepath)`
(so the resolved load version is forced); otherwise
`Path(folder) / Path(filepath)`. If `resolve_load_version()` returns
`None`, Python's `Path / None` raises `TypeError`. -/
def computePath (w : RemoteWorld) (s : DSState) :
    Except DSErr PPath × DSState × List REvent :=
  if s.local_run then
    match resolveLoadVersion w s with
    | (.ok (some v), s1, ev) =>
      (.ok ((((parsePath s.folder).joinStr s.azureml_dataset).joinStr v).joinStr
        s.filepath), s1, ev)
    | (.ok none, s1, ev) => (.error .typeError, s1, ev)
    | (.error e, s1, ev) => (.error e, s1, ev)
  else
    (.ok ((parsePath s.folder).join (parsePath s.filepath)), s, [])

/-- The `download_path` property (lines 70-77): the parent directory of
`path` when `path` has a non-empty suffix, `path` itself otherwise. -/
def downloadPath (w : RemoteWorld) (s : DSState) :
    Except DSErr PPath × DSState × List REvent :=
  match computePath w s with
  | (.ok p, s1, ev) =>
    (.ok (if p.suffix ≠ "" then p.parent else p), s1, ev)
  | (.error e, s1, ev) => (.error e, s1, ev)

/-- `_construct_dataset().load()` (lines 79-82 and 132): build the inner
dataset with its filepath overwritten by `str(self.path)` and delegate
to its `load()`, returning the result unchanged. -/
def constructLoad (w : RemoteWorld) (s : DSState) :
    Except DSErr String × DSState × List REvent :=
  match computePath w s with
  | (.ok p, s1, ev) =>
    (.ok (w.innerLoad p.toStr), s1, ev ++ [.innerLoadCall p.toStr])
  | (.error e, s1, ev) => (.error e, s1, ev)

/-- `_get_azureml_dataset` (lines 97-103):
`ml_client.data.get(self._azureml_dataset, version=self.resolve_load_version())`.
A `None` resolved version is rejected by the SDK (`valueError`); a
missing (name, version) pair is the raw `ResourceNotFoundError`. -/
def getAzuremlDataset (w : RemoteWorld) (s : DSState) :
    Except DSErr Asset × DSState × List REvent :=
  match resolveLoadVersion w s with
  | (.error e, s1, ev) => (.error e, s1, ev)
  | (.ok none, s1, ev) => (.error .valueError, s1, ev)
  | (.ok (some v), s1, ev) =>
    match w.assets s.azureml_dataset v with
    | some a => (.ok a, s1, ev ++ [.getAsset s.azureml_dataset v])
    | none => (.error .resourceNotFound, s1, ev ++ [.getAsset s.azureml_dataset v])

/-- Where a downloaded remote object lands locally: inside the
destination directory, under the object's base name. -/
def localKey (dest : String) (src : String) : String :=
  dest ++ "/" ++ (parsePath src).name

/-- Modelled from the spec: one
`fs.download(src, dest, overwrite="APPEND")` call. "Download must be
additive/non-destructive: if a file already exists locally, skip
re-fetching it" — `APPEND` keeps the existing local file, so the
transfer happens only when the local key is absent. Returns the new
local filesystem and whether a transfer happened. -/
def doDownload (l : LocalFS) (src : String) (dest : String) : LocalFS × Bool :=
  let k := localKey dest src
  if l.contains k then (l, false) else (k :: l, true)

/-- Lines 114-124 of `_load`: the remote path whose objects will be
listed. For `"uri_file"` it is the asset's own storage-relative path;
for `"uri_folder"` it is the asset's storage root joined with the inner
filepath; for any other type `path_on_azure` is never assigned
(`none`). -/
def pathOnAzureOf (w : RemoteWorld) (s : DSState) (a : Asset) : Option String :=
  if a.type == "uri_file" then some (w.inferStorage a.path)
  else if a.type == "uri_folder" then
    some ((parsePath (w.inferStorage a.path)).joinStr s.filepath).toStr
  else none

/-- One iteration of the download loop of `_load` (lines 127-131): on an
already-failed accumulator do nothing; otherwise evaluate
`self.download_path` and issue
`fs.download(f, self.download_path, overwrite="APPEND")`. -/
def downloadStep (w : RemoteWorld)
    (acc : Except DSErr (DSState × LocalFS) × List REvent) (f : String) :
    Except DSErr (DSState × LocalFS) × List REvent :=
  match acc with
  | (.error e, evA) => (.error e, evA)
  | (.ok (sA, lA), evA) =>
    match downloadPath w sA with
    | (.ok dlp, sB, evB) =>
      (.ok (sB, (doDownload lA f dlp.toStr).1),
       evA ++ evB ++ [.downloadCall f dlp.toStr "APPEND"])
    | (.error e, _, evB) => (.error e, evA ++ evB)

/-- The whole `for fpath in fs.ls(path_on_azure)` loop of `_load`. -/
def downloadLoop (w : RemoteWorld) (files : List String)
    (acc : Except DSErr (DSState × LocalFS) × List REvent) :
    Except DSErr (DSState × LocalFS) × List REvent :=
  files.foldl (downloadStep w) acc

/-- `_load` (lines 105-132). With `self._download` set: fetch the asset
for the resolved version (a raw `ResourceNotFoundError` becomes
`VersionNotFoundError`, whose message re-resolves the version), compute
`path_on_azure` per the asset type (an unhandled type leaves it unbound,
so `fs.ls(path_on_azure)` raises the unbound-local error), list the
objects under it, and download each into `self.download_path` with
`overwrite="APPEND"`. Finally — and in every case when `self._download`
is unset — delegate to the inner dataset's `load()`. -/
def load (w : RemoteWorld) (s : DSState) (l : LocalFS) :
    Except DSErr String × DSState × LocalFS × List REvent :=
  if s.download then
    match getAzuremlDataset w s with
    | (.error .resourceNotFound, s1, ev) =>
      match resolveLoadVersion w s1 with
      | (.ok _, s2, ev2) => (.error .versionNotFound, s2, l, ev ++ ev2)
      | (.error e, s2, ev2) => (.error e, s2, l, ev ++ ev2)
    | (.error e, s1, ev) => (.error e, s1, l, ev)
    | (.ok a, s1, ev) =>
      match pathOnAzureOf w s1 a with
      | none => (.error .unboundLocal, s1, l, ev)
      | some pa =>
        match downloadLoop w (w.objects pa) (.ok (s1, l), ev ++ [.lsObjects pa]) with
        | (.error e, evA) => (.error e, s1, l, evA)
        | (.ok (s2, l2), evA) =>
          match constructLoad w s2 with
          | (.ok d, s3, ev3) => (.ok d, s3, l2, evA ++ ev3)
          | (.error e, s3, ev3) => (.error e, s3, l2, evA ++ ev3)
  else
    match constructLoad w s with
    | (.ok d, s1, ev) => (.ok d, s1, l, ev)
    | (.error e, s1, ev) => (.error e, s1, l, ev)

/-! ## Closed-form helpers used to state the claims -/

/-- The local path the source computes once the load version has
resolved to `v`: the closed form of `computePath` after resolution. -/
def pathFor (s : DSState) (v : String) : PPath :=
  if s.local_run then
    (((parsePath s.folder).joinStr s.azureml_dataset).joinStr v).joinStr s.filepath
  else (parsePath s.folder).join (parsePath s.filepath)

/-- The download target derived from `pathFor`. -/
def dlFor (s : DSState) (v : String) : PPath :=
  if (pathFor s v).suffix ≠ "" then (pathFor s v).parent else pathFor s v

/-- Apply the downloads of a list of remote objects into one destination
directory, in order. -/
def applyDownloads (l : LocalFS) (dest : String) (files : List String) : LocalFS :=
  files.foldl (fun acc f => (doDownload acc f dest).1) l

/-! ## Concrete collaborator instances used in the witnesses -/

/-- A remote world holding one folder-type asset `"sales"` at latest
version `"3"`, whose storage root resolves to `"root"` and which
contains the single object `root/orders.csv`. -/
def wSales : RemoteWorld :=
  { latest := fun a => if a = "sales" then some "3" else none
    assets := fun a v =>
      if a = "sales" ∧ v = "3" then some ⟨"uri_folder", "azureml://store/root"⟩
      else none
    inferStorage := fun u => if u = "azureml://store/root" then "root" else u
    objects := fun p => if p = "root/orders.csv" then ["root/orders.csv"] else []
    innerLoad := fun p => "loaded:" ++ p }

/-- A remote world where `"sales"` has a latest version label `"9"` but
no version can actually be fetched (a stale version pointer). -/
def wStale : RemoteWorld :=
  { latest := fun a => if a = "sales" then some "9" else none
    assets := fun _ _ => none
    inferStorage := fun u => u
    objects := fun _ => []
    innerLoad := fun p => "loaded:" ++ p }

/-- A remote world whose `"sales"` asset has the unhandled type
`"mltable"`. -/
def wBad : RemoteWorld :=
  { latest := fun a => if a = "sales" then some "3" else none
    assets := fun a v =>
      if a = "sales" ∧ v = "3" then some ⟨"mltable", "azureml://store/root"⟩
      else none
    inferStorage := fun u => u
    objects := fun _ => []
    innerLoad := fun p => "loaded:" ++ p }

/-- A dataset state with the explicit version `"3"`. -/
def sExplicit : DSState :=
  ⟨"sales", some ⟨some "3", none⟩, "data", "orders.csv", none, none, false, false⟩

/-- A dataset state with a version object but no pinned load version
(`Version(None, None)`), local-run mode, download disabled. -/
def sUnpinned : DSState :=
  ⟨"sales", some ⟨none, none⟩, "data", "orders.csv", none, none, false, true⟩

/-! ## Helper lemmas -/

theorem splitSlash_ne_nil (cs : List Char) : splitSlash cs ≠ [] := by
  cases cs with
  | nil => simp [splitSlash]
  | cons c rest =>
    simp only [splitSlash]
    split <;> simp

theorem splitSlash_append (xs ys : List Char) :
    splitSlash (xs ++ '/' :: ys) = splitSlash xs ++ splitSlash ys := by
  induction xs with
  | nil => simp [splitSlash]
  | cons c rest ih =>
    simp only [List.cons_append, splitSlash, List.append_eq, ih]
    by_cases hc : c == '/'
    · simp [hc]
    · simp only [hc, Bool.false_eq_true, if_false]
      obtain ⟨a, t, ht⟩ := List.exists_cons_of_ne_nil (splitSlash_ne_nil rest)
      rw [ht]
      simp

theorem splitSlash_no_slash (cs : List Char) (h : '/' ∉ cs) :
    splitSlash cs = [cs] := by
  induction cs with
  | nil => simp [splitSlash]
  | cons c rest ih =>
    simp only [List.mem_cons, not_or] at h
    simp only [splitSlash, ih h.2]
    have : (c == '/') = false := by
      simp only [beq_eq_false_iff_ne, ne_eq]
      exact fun hco => h.1 hco.symm
    simp [this]

theorem parsePathCs_append (xs ys : List Char) (hxs : xs ≠ [])
    (hys : (ys.headD ' ' == '/') = false) :
    parsePathCs (xs ++ '/' :: ys) = (parsePathCs xs).join (parsePathCs ys) := by
  have hseg : splitSlash (xs ++ '/' :: ys) = splitSlash xs ++ splitSlash ys :=
    splitSlash_append xs ys
  have habs : (xs ++ '/' :: ys).headD ' ' = xs.headD ' ' := by
    obtain ⟨x, xr, hx⟩ := List.exists_cons_of_ne_nil hxs
    subst hx
    simp
  simp only [parsePathCs, PPath.join, hys, Bool.false_eq_true, if_false, hseg, habs,
    List.filter_append, List.map_append]

theorem toList_slash_append (a b : String) :
    (a ++ "/" ++ b).toList = a.toList ++ '/' :: b.toList := by
  simp [String.toList, String.data_append]

theorem toList_ne_nil (a : String) (h : a ≠ "") : a.toList ≠ [] := by
  intro hn
  apply h
  cases a with
  | mk d =>
    simp only [String.toList] at hn
    simp only [hn]

theorem append_slash_ne_empty (x y : String) : x ++ "/" ++ y ≠ "" := by
  intro h
  have hd := congrArg String.data h
  simp [String.data_append] at hd

theorem parsePath_slash_append (a b : String) (ha : a ≠ "")
    (hb : isAbsolute b = false) :
    parsePath (a ++ "/" ++ b) = (parsePath a).join (parsePath b) := by
  unfold parsePath
  rw [toList_slash_append]
  exact parsePathCs_append a.toList b.toList (toList_ne_nil a ha) hb

theorem parsePath_single (v : String) (h0 : v ≠ "") (h1 : v ≠ ".")
    (h2 : '/' ∉ v.toList) : (parsePath v).segments = [v] := by
  unfold parsePath parsePathCs
  rw [splitSlash_no_slash v.toList h2]
  have hne : v.toList ≠ [] := toList_ne_nil v h0
  have hdot : v.toList ≠ ['.'] := by
    intro hv
    apply h1
    cases v with
    | mk d =>
      simp only [String.toList] at hv
      simp only [hv]
  have hk : keepSeg v.toList = true := by
    simp only [keepSeg, Bool.not_eq_true', Bool.or_eq_false_iff, List.isEmpty_eq_false,
      ne_eq, beq_eq_false_iff_ne]
    exact ⟨hne, hdot⟩
  simp only [List.filter_cons, hk, if_true, List.filter_nil, List.map_cons, List.map_nil]
  cases v
  rfl

theorem isAbsolute_of_no_slash (v : String) (h : '/' ∉ v.toList) :
    isAbsolute v = false := by
  unfold isAbsolute
  rcases hl : v.toList with _ | ⟨c, cs⟩
  · simp
  · simp only [List.headD_cons, beq_eq_false_iff_ne, ne_eq]
    intro hc
    subst hc
    exact h (by rw [hl]; exact List.mem_cons_self _ _)

theorem join_segments_of_rel (p q : PPath) (h : q.absolute = false) :
    (p.join q).segments = p.segments ++ q.segments := by
  unfold PPath.join
  simp [h]

theorem parsePath_four (f asset v fp : String)
    (hf : f ≠ "") (haa : isAbsolute asset = false)
    (hv2 : '/' ∉ v.toList) (hfp : isAbsolute fp = false) :
    parsePath (f ++ "/" ++ asset ++ "/" ++ v ++ "/" ++ fp) =
      (((parsePath f).join (parsePath asset)).join (parsePath v)).join (parsePath fp) := by
  have hva : isAbsolute v = false := isAbsolute_of_no_slash v hv2
  rw [parsePath_slash_append (f ++ "/" ++ asset ++ "/" ++ v) fp
    (append_slash_ne_empty _ _) hfp]
  rw [parsePath_slash_append (f ++ "/" ++ asset) v (append_slash_ne_empty _ _) hva]
  rw [parsePath_slash_append f asset hf haa]

theorem join_name_of_ne_nil (p q : PPath) (h : q.segments ≠ []) :
    (p.join q).name = q.name := by
  unfold PPath.join PPath.name
  by_cases ha : q.absolute
  · simp [ha]
  · simp only [ha, Bool.false_eq_true, if_false]
    rw [List.getLast?_append_of_ne_nil _ h]

theorem suffix_congr_name (p q : PPath) (h : p.name = q.name) :
    p.suffix = q.suffix := by
  unfold PPath.suffix
  rw [h]

theorem resolve_explicit (w : RemoteWorld) (s : DSState) (v : String) (sv : Option String)
    (h : s.version = some ⟨some v, sv⟩) :
    resolveLoadVersion w s = (.ok (some v), s, []) := by
  simp [resolveLoadVersion, h]

theorem resolve_cached (w : RemoteWorld) (s : DSState) (v : String) (sv : Option String)
    (h : s.version = some ⟨none, sv⟩) (hc : s.version_cache_load = some v) :
    resolveLoadVersion w s = (.ok (some v), s, []) := by
  simp [resolveLoadVersion, h, fetchLatestLoadVersion, hc]

theorem resolve_fetch (w : RemoteWorld) (s : DSState) (v : String) (sv : Option String)
    (h : s.version = some ⟨none, sv⟩) (hc : s.version_cache_load = none)
    (hl : w.latest s.azureml_dataset = some v) :
    resolveLoadVersion w s =
      (.ok (some v), { s with version_cache_load := some v },
       [.getLatest s.azureml_dataset]) := by
  simp [resolveLoadVersion, h, fetchLatestLoadVersion, hc, getLatestVersion, hl]

theorem resolve_cache_only (w : RemoteWorld) (s : DSState) :
    ∃ c, (resolveLoadVersion w s).2.1 = { s with version_cache_load := c } := by
  obtain ⟨nm, ver, fo, fp, cl, cs, dl, lr⟩ := s
  rcases ver with _ | ⟨vl, vs⟩
  · exact ⟨cl, rfl⟩
  · rcases vl with _ | v
    · rcases cl with _ | c
      · rcases hl : w.latest nm with _ | lv
        · exact ⟨none, by
            simp [resolveLoadVersion, fetchLatestLoadVersion, getLatestVersion, hl]⟩
        · exact ⟨some lv, by
            simp [resolveLoadVersion, fetchLatestLoadVersion, getLatestVersion, hl]⟩
      · exact ⟨some c, by simp [resolveLoadVersion, fetchLatestLoadVersion]⟩
    · exact ⟨cl, rfl⟩

theorem resolve_err (w : RemoteWorld) (s : DSState) (e : DSErr)
    (h : (resolveLoadVersion w s).1 = .error e) :
    e = .dataSetNotFound ∧ w.latest s.azureml_dataset = none := by
  obtain ⟨nm, ver, fo, fp, cl, cs, dl, lr⟩ := s
  rcases ver with _ | ⟨vl, vs⟩
  · simp [resolveLoadVersion] at h
  · rcases vl with _ | v
    · rcases cl with _ | c
      · rcases hl : w.latest nm with _ | lv
        · refine ⟨?_, rfl⟩
          simp [resolveLoadVersion, fetchLatestLoadVersion, getLatestVersion, hl] at h
          exact h.symm
        · simp [resolveLoadVersion, fetchLatestLoadVersion, getLatestVersion, hl] at h
      · simp [resolveLoadVersion, fetchLatestLoadVersion] at h
    · simp [resolveLoadVersion] at h

theorem resolve_idem (w : RemoteWorld) (s : DSState) (vo : Option String)
    (h : (resolveLoadVersion w s).1 = .ok vo) :
    resolveLoadVersion w (resolveLoadVersion w s).2.1 =
      (.ok vo, (resolveLoadVersion w s).2.1, []) := by
  obtain ⟨nm, ver, fo, fp, cl, cs, dl, lr⟩ := s
  rcases ver with _ | ⟨vl, vs⟩
  · simp [resolveLoadVersion] at h ⊢
    exact h
  · rcases vl with _ | v
    · rcases cl with _ | c
      · rcases hl : w.latest nm with _ | lv
        · simp [resolveLoadVersion, fetchLatestLoadVersion, getLatestVersion, hl] at h
        · simp [resolveLoadVersion, fetchLatestLoadVersion, getLatestVersion, hl] at h ⊢
          exact h
      · simp [resolveLoadVersion, fetchLatestLoadVersion] at h ⊢
        exact h
    · simp [resolveLoadVersion] at h ⊢
      exact h

theorem computePath_of_resolve (w : RemoteWorld) (s : DSState) (v : String)
    (h : resolveLoadVersion w s = (.ok (some v), s, [])) :
    computePath w s = (.ok (pathFor s v), s, []) := by
  unfold computePath pathFor
  by_cases hl : s.local_run
  · simp [hl, h]
  · simp [hl]

theorem computePath_err (w : RemoteWorld) (s : DSState) (e : DSErr)
    (h : (computePath w s).1 = .error e) :
    e = .typeError ∨ (e = .dataSetNotFound ∧ w.latest s.azureml_dataset = none) := by
  unfold computePath at h
  by_cases hl : s.local_run
  · rcases hr : resolveLoadVersion w s with ⟨r, s1, ev⟩
    rcases r with e2 | vo
    · simp [hl, hr] at h
      subst h
      right
      have := resolve_err w s e2 (by rw [hr])
      exact this
    · rcases vo with _ | v2
      · simp [hl, hr] at h
        subst h
        left
        rfl
      · simp [hl, hr] at h
  · simp [hl] at h

theorem computePath_ok_name (w : RemoteWorld) (s : DSState) (p : PPath)
    (hp : (computePath w s).1 = .ok p)
    (hseg : (parsePath s.filepath).segments ≠ []) :
    p.name = (parsePath s.filepath).name := by
  unfold computePath at hp
  by_cases hl : s.local_run
  · rcases hr : resolveLoadVersion w s with ⟨r, s1, ev⟩
    rcases r with e | (_ | v)
    · simp [hl, hr] at hp
    · simp [hl, hr] at hp
    · simp [hl, hr] at hp
      subst hp
      exact join_name_of_ne_nil _ _ hseg
  · simp [hl] at hp
    subst hp
    exact join_name_of_ne_nil _ _ hseg

theorem getAzureml_ok (w : RemoteWorld) (s : DSState) (a : Asset)
    (h : (getAzuremlDataset w s).1 = .ok a) :
    ∃ v, (resolveLoadVersion w s).1 = .ok (some v) ∧
      w.assets s.azureml_dataset v = some a ∧
      getAzuremlDataset w s =
        (.ok a, (resolveLoadVersion w s).2.1,
         (resolveLoadVersion w s).2.2 ++ [.getAsset s.azureml_dataset v]) := by
  unfold getAzuremlDataset at h ⊢
  rcases hr : resolveLoadVersion w s with ⟨r, s1, ev⟩
  rcases r with e2 | vo
  · simp [hr] at h
  · rcases vo with _ | v2
    · simp [hr] at h
    · rcases ha : w.assets s.azureml_dataset v2 with _ | a2
      · simp [hr, ha] at h
      · simp only [hr, ha] at h ⊢
        simp at h
        subst h
        exact ⟨v2, rfl, ha, rfl⟩

theorem getAzureml_err (w : RemoteWorld) (s : DSState) (e : DSErr)
    (h : (getAzuremlDataset w s).1 = .error e) :
    e = .valueError ∨ e = .resourceNotFound ∨
      (e = .dataSetNotFound ∧ w.latest s.azureml_dataset = none) := by
  unfold getAzuremlDataset at h
  rcases hr : resolveLoadVersion w s with ⟨r, s1, ev⟩
  rcases r with e2 | vo
  · simp [hr] at h
    subst h
    right; right
    exact resolve_err w s e2 (by rw [hr])
  · rcases vo with _ | v2
    · simp [hr] at h
      subst h
      left; rfl
    · rcases ha : w.assets s.azureml_dataset v2 with _ | a2
      · simp [hr, ha] at h
        subst h
        right; left; rfl
      · simp [hr, ha] at h

theorem getAzureml_cache_only (w : RemoteWorld) (s : DSState) :
    ∃ c, (getAzuremlDataset w s).2.1 = { s with version_cache_load := c } := by
  rcases hr : resolveLoadVersion w s with ⟨r, s1, ev⟩
  obtain ⟨c, hc⟩ := resolve_cache_only w s
  rw [hr] at hc
  simp only at hc
  refine ⟨c, ?_⟩
  unfold getAzuremlDataset
  rcases r with e2 | (_ | v2)
  · simp [hr, hc]
  · simp [hr, hc]
  · rcases ha : w.assets s.azureml_dataset v2 with _ | a2 <;> simp [hr, ha, hc]

theorem constructLoad_of_path (w : RemoteWorld) (s : DSState) (p : PPath)
    (h : computePath w s = (.ok p, s, [])) :
    constructLoad w s = (.ok (w.innerLoad p.toStr), s, [.innerLoadCall p.toStr]) := by
  unfold constructLoad
  rw [h]
  rfl

theorem downloadLoop_ok (w : RemoteWorld) (sA : DSState) (dlp : PPath)
    (hdl : downloadPath w sA = (.ok dlp, sA, []))
    (files : List String) :
    ∀ (lA : LocalFS) (ev0 : List REvent),
      downloadLoop w files (.ok (sA, lA), ev0) =
        (.ok (sA, applyDownloads lA dlp.toStr files),
         ev0 ++ files.map (fun f => REvent.downloadCall f dlp.toStr "APPEND")) := by
  induction files with
  | nil =>
    intro lA ev0
    simp [downloadLoop, applyDownloads]
  | cons f fs ih =>
    intro lA ev0
    have hstep : downloadStep w (.ok (sA, lA), ev0) f =
        (.ok (sA, (doDownload lA f dlp.toStr).1),
         ev0 ++ [REvent.downloadCall f dlp.toStr "APPEND"]) := by
      simp [downloadStep, hdl]
    have hih := ih ((doDownload lA f dlp.toStr).1)
      (ev0 ++ [REvent.downloadCall f dlp.toStr "APPEND"])
    unfold downloadLoop at hih ⊢
    simp only [List.foldl_cons, hstep, hih, applyDownloads, List.map_cons]
    simp [applyDownloads]

theorem load_download_ok (w : RemoteWorld) (s s1 : DSState) (l : LocalFS)
    (v : String) (a : Asset) (ev1 : List REvent) (pa : String)
    (hd : s.download = true)
    (hres : resolveLoadVersion w s = (.ok (some v), s1, ev1))
    (ha : w.assets s.azureml_dataset v = some a)
    (hpa : pathOnAzureOf w s1 a = some pa) :
    load w s l =
      (.ok (w.innerLoad (pathFor s1 v).toStr), s1,
       applyDownloads l (dlFor s1 v).toStr (w.objects pa),
       ev1 ++ [.getAsset s.azureml_dataset v, .lsObjects pa]
           ++ (w.objects pa).map (fun f => .downloadCall f (dlFor s1 v).toStr "APPEND")
           ++ [.innerLoadCall (pathFor s1 v).toStr]) := by
  have hres1 : resolveLoadVersion w s1 = (.ok (some v), s1, []) := by
    have := resolve_idem w s (some v) (by rw [hres])
    rw [hres] at this
    exact this
  have hcp : computePath w s1 = (.ok (pathFor s1 v), s1, []) :=
    computePath_of_resolve w s1 v hres1
  have hdl : downloadPath w s1 = (.ok (dlFor s1 v), s1, []) := by
    unfold downloadPath dlFor
    rw [hcp]
  have hget : getAzuremlDataset w s =
      (.ok a, s1, ev1 ++ [.getAsset s.azureml_dataset v]) := by
    unfold getAzuremlDataset
    rw [hres]
    simp [ha]
  have hloop := downloadLoop_ok w s1 (dlFor s1 v) hdl (w.objects pa) l
    ((ev1 ++ [REvent.getAsset s.azureml_dataset v]) ++ [REvent.lsObjects pa])
  have hcl : constructLoad w s1 =
      (.ok (w.innerLoad (pathFor s1 v).toStr), s1,
       [.innerLoadCall (pathFor s1 v).toStr]) :=
    constructLoad_of_path w s1 (pathFor s1 v) hcp
  unfold load
  rw [hd]
  simp only [if_true]
  rw [hget]
  simp only [hpa]
  rw [hloop]
  simp [hcl, List.append_assoc]

theorem doDownload_subset (l : LocalFS) (f d k : String) (h : k ∈ l) :
    k ∈ (doDownload l f d).1 := by
  unfold doDownload
  by_cases hm : localKey d f ∈ l
  · simpa [hm] using h
  · simp [hm]
    right
    exact h

theorem doDownload_mem_key (l : LocalFS) (f d : String) :
    localKey d f ∈ (doDownload l f d).1 := by
  unfold doDownload
  by_cases hm : localKey d f ∈ l
  · simp [hm]
  · simp [hm]

theorem doDownload_of_mem (l : LocalFS) (f d : String)
    (h : localKey d f ∈ l) : (doDownload l f d).1 = l := by
  unfold doDownload
  simp [h]

theorem applyDownloads_subset (d : String) (files : List String) :
    ∀ (l : LocalFS) (k : String), k ∈ l → k ∈ applyDownloads l d files := by
  induction files with
  | nil => intro l k h; simpa [applyDownloads] using h
  | cons f fs ih =>
    intro l k h
    unfold applyDownloads at ih ⊢
    simp only [List.foldl_cons]
    exact ih _ k (doDownload_subset l f d k h)

theorem applyDownloads_mem (d : String) (files : List String) :
    ∀ (l : LocalFS) (f : String), f ∈ files →
      localKey d f ∈ applyDownloads l d files := by
  induction files with
  | nil => intro l f h; simp at h
  | cons g gs ih =>
    intro l f h
    unfold applyDownloads at ih ⊢
    simp only [List.foldl_cons]
    rcases List.mem_cons.mp h with h1 | h2
    · subst h1
      exact applyDownloads_subset d gs _ _ (doDownload_mem_key l f d)
    · exact ih _ f h2

theorem applyDownloads_of_all_mem (d : String) (files : List String) :
    ∀ (l : LocalFS), (∀ f ∈ files, localKey d f ∈ l) →
      applyDownloads l d files = l := by
  induction files with
  | nil => intro l _; simp [applyDownloads]
  | cons g gs ih =>
    intro l h
    unfold applyDownloads at ih ⊢
    simp only [List.foldl_cons]
    rw [doDownload_of_mem l g d (h g (List.mem_cons_self g gs))]
    exact ih l (fun f hf => h f (List.mem_cons_of_mem g hf))

theorem applyDownloads_idem (d : String) (files : List String) (l : LocalFS) :
    applyDownloads (applyDownloads l d files) d files = applyDownloads l d files :=
  applyDownloads_of_all_mem d files _ (fun f hf => applyDownloads_mem d files l f hf)

theorem load_no_download (w : RemoteWorld) (s : DSState) (l : LocalFS)
    (hd : s.download = false)
    (hres : s.local_run = false ∨
      ∃ ver, s.version = some ver ∧ (ver.load ≠ none ∨ s.version_cache_load ≠ none)) :
    ∃ p, load w s l = (.ok (w.innerLoad p), s, l, [.innerLoadCall p]) := by
  have hcp : ∃ p, computePath w s = (.ok p, s, []) := by
    rcases hres with hlr | ⟨ver, hver, hcase⟩
    · exact ⟨(parsePath s.folder).join (parsePath s.filepath), by
        unfold computePath
        simp [hlr]⟩
    · rcases hcase with hload | hcache
      · rcases hld : ver.load with _ | v
        · exact absurd hld hload
        · refine ⟨?_, ?_⟩
          · exact pathFor s v
          · exact computePath_of_resolve w s v (resolve_explicit w s v ver.save
              (by rw [hver]; cases ver; simp at hld; rw [hld]))
      · rcases hc : s.version_cache_load with _ | c
        · exact absurd hc hcache
        · rcases hld : ver.load with _ | v
          · exact ⟨pathFor s c, computePath_of_resolve w s c
              (resolve_cached w s c ver.save (by rw [hver]; cases ver; simp at hld; rw [hld]) hc)⟩
          · exact ⟨pathFor s v, computePath_of_resolve w s v (resolve_explicit w s v ver.save
              (by rw [hver]; cases ver; simp at hld; rw [hld]))⟩
  obtain ⟨p, hp⟩ := hcp
  refine ⟨p.toStr, ?_⟩
  unfold load
  rw [hd]
  simp only [Bool.false_eq_true, if_false]
  rw [constructLoad_of_path w s p hp]

theorem load_not_assetNotFound (w : RemoteWorld) (s : DSState) (l : LocalFS)
    (hlat : w.latest s.azureml_dataset ≠ none) :
    (load w s l).1 ≠ .error .dataSetNotFound := by
  rcases hd : s.download with _ | _
  · -- download disabled: only constructLoad runs
    unfold load
    rw [hd]
    simp only [Bool.false_eq_true, if_false]
    rcases hcl : constructLoad w s with ⟨r, s1, ev⟩
    rcases r with e | d2
    · -- error from computePath
      unfold constructLoad at hcl
      rcases hcp : computePath w s with ⟨rc, sc, evc⟩
      rcases rc with ec | pc
      · rw [hcp] at hcl
        simp at hcl
        obtain ⟨he, _, _⟩ := hcl
        rcases computePath_err w s ec (by rw [hcp]) with h1 | ⟨h2, h3⟩
        · simp [he ▸ h1]
        · exact absurd h3 hlat
      · rw [hcp] at hcl
        simp at hcl
    · simp
  · -- download enabled
    unfold load
    rw [hd]
    simp only [if_true]
    rcases hg : getAzuremlDataset w s with ⟨r, s1, ev⟩
    rcases r with e | a
    · rcases he : e with _ | _ | _ | _ | _ | _ | _
      all_goals (subst he)
      case resourceNotFound =>
        simp only []
        rcases hr2 : resolveLoadVersion w s1 with ⟨r2, s2, ev2⟩
        rcases r2 with e2 | vo
        · have h2 := resolve_err w s1 e2 (by rw [hr2])
          obtain ⟨c, hc⟩ := getAzureml_cache_only w s
          rw [hg] at hc
          simp only at hc
          rw [hc] at h2
          simp at h2
          exact absurd h2.2 hlat
        · simp
      all_goals first
        | (rcases getAzureml_err w s _ (by rw [hg]) with h1 | h1 | ⟨h1, h2⟩ <;>
            simp_all)
    · obtain ⟨v, hres1, ha2, heq⟩ := getAzureml_ok w s a (by rw [hg])
      have hpair := hg.symm.trans heq
      have hs1 : s1 = (resolveLoadVersion w s).2.1 := congrArg (fun t => t.2.1) hpair
      have hres2 : resolveLoadVersion w s1 = (.ok (some v), s1, []) := by
        rw [hs1]
        exact resolve_idem w s (some v) hres1
      have hcp := computePath_of_resolve w s1 v hres2
      have hdl : downloadPath w s1 = (.ok (dlFor s1 v), s1, []) := by
        unfold downloadPath dlFor
        rw [hcp]
      rcases hpa : pathOnAzureOf w s1 a with _ | pa
      · simp [hpa]
      · have hloop := downloadLoop_ok w s1 (dlFor s1 v) hdl (w.objects pa) l
          (ev ++ [REvent.lsObjects pa])
        have hcl := constructLoad_of_path w s1 (pathFor s1 v) hcp
        simp [hpa, hloop, hcl]

/-! ## The claims -/

/-- C1: for every dataset instance (with well-formed relative path
components and an explicit resolved load version), the computed path in
local-run mode is `<folder>/<azureml_dataset>/<version>/<filepath>` — it
contains the resolved load version as a distinct path segment — and in
remote-run mode it is `<folder>/<filepath>`, with no version segment and
no remote call in either mode. -/
theorem claim1_local_path_embeds_version (w : RemoteWorld) (s : DSState)
    (v : String) (sv : Option String)
    (hver : s.version = some ⟨some v, sv⟩)
    (hf : s.folder ≠ "")
    (hna : isAbsolute s.azureml_dataset = false)
    (hv0 : v ≠ "") (hv1 : v ≠ ".") (hv2 : '/' ∉ v.toList)
    (hfp : isAbsolute s.filepath = false) :
    computePath w { s with local_run := true } =
      (.ok (parsePath (s.folder ++ "/" ++ s.azureml_dataset ++ "/" ++ v ++ "/" ++
        s.filepath)), { s with local_run := true }, []) ∧
    v ∈ (parsePath (s.folder ++ "/" ++ s.azureml_dataset ++ "/" ++ v ++ "/" ++
        s.filepath)).segments ∧
    computePath w { s with local_run := false } =
      (.ok (parsePath (s.folder ++ "/" ++ s.filepath)),
       { s with local_run := false }, []) := by
  have hva : isAbsolute v = false := isAbsolute_of_no_slash v hv2
  have h4 := parsePath_four s.folder s.azureml_dataset v s.filepath hf hna hv2 hfp
  have hres : resolveLoadVersion w { s with local_run := true } =
      (.ok (some v), { s with local_run := true }, []) :=
    resolve_explicit w _ v sv hver
  have hcp := computePath_of_resolve w { s with local_run := true } v hres
  refine ⟨?_, ?_, ?_⟩
  · rw [hcp, h4]
    simp [pathFor, PPath.joinStr]
  · rw [h4]
    rw [join_segments_of_rel _ _ hfp, join_segments_of_rel _ _ hva,
        join_segments_of_rel _ _ hna]
    simp [parsePath_single v hv0 hv1 hv2]
  · unfold computePath
    rw [parsePath_slash_append s.folder s.filepath hf hfp]
    simp

/-- C1 witness: asset `"sales"`, version `"3"`, inner filepath
`"orders.csv"`, folder root `"data"` give local path
`data/sales/3/orders.csv` and remote path `data/orders.csv`. -/
theorem claim1_witness :
    (computePath wSales { sExplicit with local_run := true }).1 =
      .ok (parsePath "data/sales/3/orders.csv") ∧
    (parsePath "data/sales/3/orders.csv").toStr = "data/sales/3/orders.csv" ∧
    "3" ∈ (parsePath "data/sales/3/orders.csv").segments ∧
    (computePath wSales { sExplicit with local_run := false }).1 =
      .ok (parsePath "data/orders.csv") ∧
    (parsePath "data/orders.csv").toStr = "data/orders.csv" := by
  have h := claim1_local_path_embeds_version wSales sExplicit "3" none rfl
    (by decide) (by decide) (by decide) (by decide) (by decide) (by decide)
  refine ⟨?_, by decide, ?_, ?_, by decide⟩
  · rw [h.1]
    rfl
  · exact h.2.1
  · rw [h.2.2]
    rfl

/-- C2: construction raises the configuration-conflict `DataSetError`
exactly when the inner dataset configuration carries the version key
(the parsed `versioned` flag), and the constructor makes no remote call
(empty trace) in every case. -/
theorem claim2_versioned_config_rejected (azureml_dataset : String)
    (cfg : InnerConfig) (version : Option KVersion) (folder : String) :
    (mkFolderDataSet azureml_dataset cfg version folder).2 = [] ∧
    (cfg.hasVersionKey = true →
      (mkFolderDataSet azureml_dataset cfg version folder).1 = .error .dataSetError) ∧
    (cfg.hasVersionKey = false →
      ∃ s, (mkFolderDataSet azureml_dataset cfg version folder).1 = .ok s) := by
  unfold mkFolderDataSet
  rcases h : cfg.hasVersionKey with _ | _
  · refine ⟨by simp, by simp, fun _ => ?_⟩
    exact ⟨{ azureml_dataset := azureml_dataset, version := version, folder := folder,
             filepath := cfg.filepath, version_cache_load := none,
             version_cache_save := none, download := false, local_run := false },
           by simp⟩
  · exact ⟨by simp, fun _ => by simp, by simp⟩

/-- C2 witness: a flagged inner config is rejected with an empty remote
trace, and the same config without the flag constructs successfully. -/
theorem claim2_witness :
    (mkFolderDataSet "sales" ⟨true, "orders.csv"⟩ none "data").1 =
      .error .dataSetError ∧
    (mkFolderDataSet "sales" ⟨true, "orders.csv"⟩ none "data").2 = [] ∧
    ∃ s, (mkFolderDataSet "sales" ⟨false, "orders.csv"⟩ none "data").1 = .ok s := by
  have h1 := claim2_versioned_config_rejected "sales" ⟨true, "orders.csv"⟩ none "data"
  have h2 := claim2_versioned_config_rejected "sales" ⟨false, "orders.csv"⟩ none "data"
  exact ⟨h1.2.1 rfl, h1.1, h2.2.2 rfl⟩

/-- C3 counterexample: with download disabled but local-run mode set and
no explicit version configured, `load()` does issue one remote call (the
latest-version lookup forced by the `path` property), refuting "zero
remote calls in every mode, including local-run mode with no explicit
version configured". -/
theorem claim3_counterexample :
    sUnpinned.download = false ∧
    (load wSales sUnpinned []).2.2.2.filter REvent.isRemote =
      [.getLatest "sales"] := by
  constructor
  · rfl
  · decide

/-- C3 (amended): with download disabled, `load()` makes zero remote
calls and only invokes the inner dataset load, returning its result
unchanged — provided path computation does not itself force a version
resolution (remote-run mode, or an explicit version, or an already
populated load-version cache). In local-run mode with no explicit
version and an empty cache, the path computation performs one
latest-version lookup (see the counterexample). -/
theorem claim3_download_disabled_amended (w : RemoteWorld) (s : DSState)
    (l : LocalFS) (hd : s.download = false)
    (hres : s.local_run = false ∨
      ∃ ver, s.version = some ver ∧
        (ver.load ≠ none ∨ s.version_cache_load ≠ none)) :
    (load w s l).2.2.2.filter REvent.isRemote = [] ∧
    ∃ p, load w s l = (.ok (w.innerLoad p), s, l, [.innerLoadCall p]) := by
  obtain ⟨p, hp⟩ := load_no_download w s l hd hres
  refine ⟨?_, p, hp⟩
  rw [hp]
  simp [REvent.isRemote]

/-- C3 witness: download disabled in remote-run mode — no remote call
at all and the inner load result is returned unchanged. -/
theorem claim3_witness :
    (load wSales { sUnpinned with local_run := false } []).2.2.2.filter
      REvent.isRemote = [] ∧
    load wSales { sUnpinned with local_run := false } [] =
      (.ok "loaded:data/orders.csv", { sUnpinned with local_run := false }, [],
       [.innerLoadCall "data/orders.csv"]) := by
  have h := claim3_download_disabled_amended wSales
    { sUnpinned with local_run := false } [] rfl (Or.inl rfl)
  exact ⟨h.1, by rfl⟩

/-- C4: with no explicit version configured and an empty cache, the
first `resolve_load_version()` issues exactly one remote latest-version
lookup and caches it in the load slot; the second call returns the
identical version with no further remote call. -/
theorem claim4_latest_version_cached (w : RemoteWorld) (s : DSState)
    (v : String) (sv : Option String)
    (hver : s.version = some ⟨none, sv⟩)
    (hc : s.version_cache_load = none)
    (hl : w.latest s.azureml_dataset = some v) :
    resolveLoadVersion w s =
      (.ok (some v), { s with version_cache_load := some v },
       [.getLatest s.azureml_dataset]) ∧
    resolveLoadVersion w { s with version_cache_load := some v } =
      (.ok (some v), { s with version_cache_load := some v }, []) := by
  exact ⟨resolve_fetch w s v sv hver hc hl,
    resolve_cached w { s with version_cache_load := some v } v sv hver rfl⟩

/-- C4 witness: the two calls on the `"sales"` asset both return `"3"`
with a single `getLatest` event in total. -/
theorem claim4_witness :
    resolveLoadVersion wSales sUnpinned =
      (.ok (some "3"), { sUnpinned with version_cache_load := some "3" },
       [.getLatest "sales"]) ∧
    resolveLoadVersion wSales { sUnpinned with version_cache_load := some "3" } =
      (.ok (some "3"), { sUnpinned with version_cache_load := some "3" }, []) :=
  claim4_latest_version_cached wSales sUnpinned "3" none rfl rfl rfl

/-- C5: with an explicit version supplied at construction,
`resolve_load_version()` returns it unchanged, leaves the state
untouched and issues zero remote calls. -/
theorem claim5_explicit_version_no_remote (w : RemoteWorld) (s : DSState)
    (v : String) (sv : Option String)
    (hver : s.version = some ⟨some v, sv⟩) :
    resolveLoadVersion w s = (.ok (some v), s, []) :=
  resolve_explicit w s v sv hver

/-- C5 witness: explicit version `"3"` is returned unchanged with an
empty remote trace, even against a world with a different latest
version. -/
theorem claim5_witness :
    resolveLoadVersion wStale sExplicit = (.ok (some "3"), sExplicit, []) :=
  claim5_explicit_version_no_remote wStale sExplicit "3" none rfl

theorem filter_isLs_downloads (files : List String) (dl : String) :
    (files.map (fun f => REvent.downloadCall f dl "APPEND")).filter
      REvent.isLs = [] := by
  induction files with
  | nil => simp
  | cons f fs ih => simp [REvent.isLs, ih]

theorem filter_isDownload_downloads (files : List String) (dl : String) :
    (files.map (fun f => REvent.downloadCall f dl "APPEND")).filter
      REvent.isDownload =
      files.map (fun f => REvent.downloadCall f dl "APPEND") := by
  induction files with
  | nil => simp
  | cons f fs ih => simp [REvent.isDownload, ih]

/-- C6: when the resolved version is absent from the asset fetch while
the asset name itself resolved during version resolution, `load()`
raises `VersionNotFoundError` (not the asset-not-found error); and the
asset-not-found `DataSetNotFoundError` can only arise when the named
asset has no latest version at all. -/
theorem claim6_version_not_found_taxonomy (w : RemoteWorld) (s : DSState)
    (l : LocalFS) (v : String) (sv : Option String)
    (hd : s.download = true)
    (hver : s.version = some ⟨none, sv⟩)
    (hc : s.version_cache_load = none)
    (hlat : w.latest s.azureml_dataset = some v)
    (hmiss : w.assets s.azureml_dataset v = none) :
    (load w s l).1 = .error .versionNotFound ∧
    ∀ (s2 : DSState) (l2 : LocalFS), w.latest s2.azureml_dataset ≠ none →
      (load w s2 l2).1 ≠ .error .dataSetNotFound := by
  constructor
  · have hres := resolve_fetch w s v sv hver hc hlat
    have hget : getAzuremlDataset w s =
        (.error .resourceNotFound, { s with version_cache_load := some v },
         [.getLatest s.azureml_dataset, .getAsset s.azureml_dataset v]) := by
      unfold getAzuremlDataset
      rw [hres]
      simp [hmiss]
    have hres2 : resolveLoadVersion w { s with version_cache_load := some v } =
        (.ok (some v), { s with version_cache_load := some v }, []) :=
      resolve_cached w { s with version_cache_load := some v } v sv hver rfl
    unfold load
    rw [hd]
    simp only [if_true]
    rw [hget]
    simp only [hres2]
  · intro s2 l2 h2
    exact load_not_assetNotFound w s2 l2 h2

/-- C6 witness: the `"sales"` asset resolves to latest version `"9"`
but that version cannot be fetched, and `load()` fails with
`versionNotFound`. -/
theorem claim6_witness :
    (load wStale { sUnpinned with download := true } []).1 =
      .error .versionNotFound ∧
    wStale.latest "sales" ≠ none := by
  have h := claim6_version_not_found_taxonomy wStale
    { sUnpinned with download := true } [] "9" none rfl rfl rfl rfl rfl
  exact ⟨h.1, by decide⟩

/-- C7: during `load()` with download enabled, the single listed remote
path is the asset storage path itself for a `uri_file` asset, and the
asset storage root joined with the inner filepath for a `uri_folder`
asset; every download call is for an object listed under exactly that
path. -/
theorem claim7_selective_remote_path (w : RemoteWorld) (s : DSState)
    (l : LocalFS) (v : String) (sv : Option String) (a : Asset)
    (hd : s.download = true)
    (hver : s.version = some ⟨some v, sv⟩)
    (ha : w.assets s.azureml_dataset v = some a)
    (htype : a.type = "uri_file" ∨ a.type = "uri_folder") :
    ∃ dl,
      (load w s l).2.2.2.filter REvent.isLs =
        [.lsObjects (if a.type = "uri_file" then w.inferStorage a.path
          else ((parsePath (w.inferStorage a.path)).joinStr s.filepath).toStr)] ∧
      (load w s l).2.2.2.filter REvent.isDownload =
        (w.objects (if a.type = "uri_file" then w.inferStorage a.path
          else ((parsePath (w.inferStorage a.path)).joinStr s.filepath).toStr)).map
          (fun f => .downloadCall f dl "APPEND") := by
  have hres := resolve_explicit w s v sv hver
  rcases htype with htf | htf
  · have hpa : pathOnAzureOf w s a = some (w.inferStorage a.path) := by
      simp [pathOnAzureOf, htf]
    rw [load_download_ok w s s l v a [] (w.inferStorage a.path) hd hres ha hpa]
    refine ⟨(dlFor s v).toStr, ?_, ?_⟩ <;>
      simp [htf, List.filter_append, REvent.isLs, REvent.isDownload,
        filter_isLs_downloads, filter_isDownload_downloads]
  · have hne : a.type = "uri_file" → False := by
      intro hcon
      rw [htf] at hcon
      simp at hcon
    have hpa : pathOnAzureOf w s a =
        some ((parsePath (w.inferStorage a.path)).joinStr s.filepath).toStr := by
      simp [pathOnAzureOf, htf]
    rw [load_download_ok w s s l v a []
      ((parsePath (w.inferStorage a.path)).joinStr s.filepath).toStr hd hres ha hpa]
    refine ⟨(dlFor s v).toStr, ?_, ?_⟩ <;>
      simp [htf, hne, List.filter_append, REvent.isLs, REvent.isDownload,
        filter_isLs_downloads, filter_isDownload_downloads]

/-- C7 witness: for the folder asset with storage root `"root"` and
inner filepath `"orders.csv"`, the listing targets `root/orders.csv`
(not the folder root) and the single object under it is downloaded. -/
theorem claim7_witness :
    (load wSales { sExplicit with download := true, local_run := true }
      []).2.2.2.filter REvent.isLs = [.lsObjects "root/orders.csv"] ∧
    ∃ dl, (load wSales { sExplicit with download := true, local_run := true }
      []).2.2.2.filter REvent.isDownload =
      [.downloadCall "root/orders.csv" dl "APPEND"] := by
  have h := claim7_selective_remote_path wSales
    { sExplicit with download := true, local_run := true } [] "3" none
    ⟨"uri_folder", "azureml://store/root"⟩ rfl rfl rfl (Or.inr rfl)
  obtain ⟨dl, h1, h2⟩ := h
  refine ⟨?_, dl, ?_⟩
  · rw [h1]
    rfl
  · rw [h2]
    rfl

/-- C8: every download issued by `load()` uses the skip-existing
`"APPEND"` mode, and a second `load()` against the same resolved
version leaves the local filesystem unchanged: no file already present
at the download target is transferred again. -/
theorem claim8_download_idempotent (w : RemoteWorld) (s : DSState)
    (l : LocalFS) (v : String) (sv : Option String) (a : Asset)
    (hd : s.download = true)
    (hver : s.version = some ⟨some v, sv⟩)
    (ha : w.assets s.azureml_dataset v = some a)
    (htype : a.type = "uri_file" ∨ a.type = "uri_folder") :
    (∀ f d m, REvent.downloadCall f d m ∈ (load w s l).2.2.2 → m = "APPEND") ∧
    (load w (load w s l).2.1 (load w s l).2.2.1).2.2.1 = (load w s l).2.2.1 := by
  have hres := resolve_explicit w s v sv hver
  have hpa : ∃ pa, pathOnAzureOf w s a = some pa := by
    rcases htype with h | h
    · exact ⟨w.inferStorage a.path, by simp [pathOnAzureOf, h]⟩
    · refine ⟨((parsePath (w.inferStorage a.path)).joinStr s.filepath).toStr, ?_⟩
      simp [pathOnAzureOf, h]
  obtain ⟨pa, hpa⟩ := hpa
  have h1 := load_download_ok w s s l v a [] pa hd hres ha hpa
  have h2 := load_download_ok w s s
    (applyDownloads l (dlFor s v).toStr (w.objects pa)) v a [] pa hd hres ha hpa
  constructor
  · intro f d m hm
    rw [h1] at hm
    simp only [List.nil_append, List.mem_append, List.mem_cons, List.mem_map,
      List.mem_singleton, List.not_mem_nil, or_false, false_or] at hm
    rcases hm with ((h | h) | ⟨x, _, h⟩) | h <;> simp at h
    exact h.2.2.symm
  · simp only [h1]
    simp only [h2]
    exact applyDownloads_idem _ _ _

/-- C8 witness: loading the `"sales"` asset twice — all download events
use `"APPEND"` and the second call does not change the local files. -/
theorem claim8_witness :
    (∀ f d m, REvent.downloadCall f d m ∈
      (load wSales { sExplicit with download := true, local_run := true }
        []).2.2.2 → m = "APPEND") ∧
    (load wSales { sExplicit with download := true, local_run := true }
      (load wSales { sExplicit with download := true, local_run := true }
        []).2.2.1).2.2.1 =
      (load wSales { sExplicit with download := true, local_run := true }
        []).2.2.1 := by
  have h := claim8_download_idempotent wSales
    { sExplicit with download := true, local_run := true } [] "3" none
    ⟨"uri_folder", "azureml://store/root"⟩ rfl rfl rfl (Or.inr rfl)
  exact ⟨h.1, h.2⟩

/-- C9: the download target is the parent directory of the computed
path when the inner filepath has a file suffix, and the computed path
itself unchanged when it has none. -/
theorem claim9_download_target (w : RemoteWorld) (s : DSState) (p : PPath)
    (hseg : (parsePath s.filepath).segments ≠ [])
    (hp : (computePath w s).1 = .ok p) :
    (downloadPath w s).1 =
      .ok (if (parsePath s.filepath).suffix ≠ "" then p.parent else p) := by
  have hname := computePath_ok_name w s p hp hseg
  have hsuf : p.suffix = (parsePath s.filepath).suffix :=
    suffix_congr_name _ _ hname
  unfold downloadPath
  rcases hcp : computePath w s with ⟨r, sc, evc⟩
  rw [hcp] at hp
  simp only at hp
  rcases r with e | q
  · simp at hp
  · simp at hp
    subst hp
    simp [hsuf]

/-- C9 witness: inner filepath `"orders.csv"` gives download target
`data/sales/3` (the `orders.csv` segment removed); inner filepath
`"orders"` gives `data/sales/3/orders` unchanged. -/
theorem claim9_witness :
    (computePath wSales { sExplicit with local_run := true }).1 =
      .ok (parsePath "data/sales/3/orders.csv") ∧
    (downloadPath wSales { sExplicit with local_run := true }).1 =
      .ok (parsePath "data/sales/3") ∧
    (computePath wSales
      { sExplicit with local_run := true, filepath := "orders" }).1 =
      .ok (parsePath "data/sales/3/orders") ∧
    (downloadPath wSales
      { sExplicit with local_run := true, filepath := "orders" }).1 =
      .ok (parsePath "data/sales/3/orders") := by
  have hA := claim9_download_target wSales { sExplicit with local_run := true }
    (parsePath "data/sales/3/orders.csv") (by decide) (by decide)
  have hB := claim9_download_target wSales
    { sExplicit with local_run := true, filepath := "orders" }
    (parsePath "data/sales/3/orders") (by decide) (by decide)
  refine ⟨by decide, ?_, by decide, ?_⟩
  · rw [hA]
    decide
  · rw [hB]
    decide

/-- C10: if download is enabled and the fetched asset type is neither
`"uri_file"` nor `"uri_folder"`, `load()` fails with the
unbound-local-variable error — neither branch assigned `path_on_azure` —
with no listing, no download and no explicit unsupported-type error. -/
theorem claim10_unknown_type_unbound_local (w : RemoteWorld) (s : DSState)
    (l : LocalFS) (v : String) (sv : Option String) (a : Asset)
    (hd : s.download = true)
    (hver : s.version = some ⟨some v, sv⟩)
    (ha : w.assets s.azureml_dataset v = some a)
    (h1 : a.type ≠ "uri_file") (h2 : a.type ≠ "uri_folder") :
    load w s l = (.error .unboundLocal, s, l, [.getAsset s.azureml_dataset v]) := by
  have hres := resolve_explicit w s v sv hver
  have hget : getAzuremlDataset w s =
      (.ok a, s, [.getAsset s.azureml_dataset v]) := by
    unfold getAzuremlDataset
    rw [hres]
    simp [ha]
  have hpa : pathOnAzureOf w s a = none := by
    unfold pathOnAzureOf
    simp [h1, h2]
  unfold load
  rw [hd]
  simp only [if_true]
  rw [hget]
  simp [hpa]

/-- C10 witness: an asset of type `"mltable"` makes `load()` fail with
`unboundLocal` right after the asset fetch, with no download events. -/
theorem claim10_witness :
    load wBad { sExplicit with download := true, local_run := true } [] =
      (.error .unboundLocal, { sExplicit with download := true, local_run := true },
       [], [.getAsset "sales" "3"]) ∧
    (load wBad { sExplicit with download := true, local_run := true }
      []).2.2.2.filter REvent.isDownload = [] := by
  have h := claim10_unknown_type_unbound_local wBad
    { sExplicit with download := true, local_run := true } [] "3" none
    ⟨"mltable", "azureml://store/root"⟩ rfl rfl rfl (by decide) (by decide)
  exact ⟨h, by rw [h]; rfl⟩

end KedroAzureML
